import Mathlib

/-!
Verification of the statistical core of `NanoAnalysis/python/process_root_file.py`:
trigger-OR event filtering with weighted accumulation (`filter_events`),
generator-level sum-of-weights normalization (`get_genEventSumw`), and
Clopper-Pearson efficiency estimation (`getEff`).

The Python script is shallowly embedded: machine floats are idealized as `ℚ`
(the script only adds, multiplies and divides), Python exceptions become an
explicit error type, and the event stream / run metadata supplied by ROOT I/O
become lists of records.  `TEfficiency.ClopperPearson` comes from the external
ROOT library, so it is modelled from the specification (see below).
-/

open Finset

namespace ZZAnalysis

/-- Python exception kinds raised by the script.  The specification names them
`ConfigurationError` (the `ValueError` of line 96), `MissingFieldError` (the
`AttributeError` raised by `getattr` on an absent branch) and
`DivisionByZeroError` (Python `ZeroDivisionError`). -/
inductive PyErr where
  | valueError
  | attributeError
  | zeroDivisionError
deriving DecidableEq, Repr

/-- One record of the `Events` tree, restricted to the fields the script reads:
the boolean trigger branches (an association list, a branch being possibly
absent), the reference-selection branch `HLT_passZZ4l` (an integer flag) and
the `overallEventWeight` branch.  `none` models an absent branch, on which
`getattr` raises `AttributeError`. -/
structure Event where
  flags : List (String × Bool)
  passZZ4l : Option ℤ
  overallEventWeight : Option ℚ
deriving DecidableEq, Repr

/-- One entry of the `Runs` tree: `genEventCount` and `genEventSumw`. -/
structure RunMeta where
  genEventCount : ℕ
  genEventSumw : ℚ
deriving DecidableEq, Repr

/-- The mutable counters of the scan loop of `filter_events`
(lines 113-115): `total_events`, `passed_events_count`, `weighted_events`. -/
structure Accum where
  total_events : ℕ
  passed_events_count : ℕ
  weighted_events : ℚ
deriving DecidableEq, Repr

/-- The zero-initialized accumulator of lines 113-115. -/
def accum0 : Accum := ⟨0, 0, 0⟩

/-- `getattr(event, name)` for a trigger branch: the branch value if present,
`AttributeError` otherwise. -/
def getattrTrigger (e : Event) (name : String) : Except PyErr Bool :=
  match e.flags.lookup name with
  | some b => .ok b
  | none => .error .attributeError

/-- `getattr(event, "HLT_passZZ4l")` (line 125). -/
def getattrPassZZ4l (e : Event) : Except PyErr ℤ :=
  match e.passZZ4l with
  | some v => .ok v
  | none => .error .attributeError

/-- `getattr(event, "overallEventWeight")` (line 127). -/
def getattrWeight (e : Event) : Except PyErr ℚ :=
  match e.overallEventWeight with
  | some w => .ok w
  | none => .error .attributeError

/-- The inner trigger loop of `filter_events` (lines 120-124): looks the
configured triggers up in order and stops at the first true one (`break`);
an absent branch raises `AttributeError` when (and only when) it is reached. -/
def anyTrigger (e : Event) : List String → Except PyErr Bool
  | [] => .ok false
  | t :: ts =>
    match getattrTrigger e t with
    | .error err => .error err
    | .ok true => .ok true
    | .ok false => anyTrigger e ts

/-- One iteration of the scan loop of `filter_events` (lines 117-127):
increment `total_events`, evaluate the trigger OR, and on
`passed and getattr(event, "HLT_passZZ4l") == 1` increment
`passed_events_count` and add `overallEventWeight` to `weighted_events`.
The reference flag and the weight are only looked up when needed
(Python's `and` short-circuits). -/
def processEvent (triggers : List String) (acc : Accum) (e : Event) :
    Except PyErr Accum :=
  let acc1 : Accum :=
    { acc with total_events := acc.total_events + 1 }
  match anyTrigger e triggers with
  | .error err => .error err
  | .ok false => .ok acc1
  | .ok true =>
    match getattrPassZZ4l e with
    | .error err => .error err
    | .ok r =>
      if r = 1 then
        match getattrWeight e with
        | .error err => .error err
        | .ok w =>
          .ok { acc1 with
                  passed_events_count := acc1.passed_events_count + 1,
                  weighted_events := acc1.weighted_events + w }
      else .ok acc1

/-- The scan loop of `filter_events` over the whole stream (lines 117-127),
threading the accumulator; a raised exception aborts the loop. -/
def scanEvents (triggers : List String) (acc : Accum) :
    List Event → Except PyErr Accum
  | [] => .ok acc
  | e :: es =>
    match processEvent triggers acc e with
    | .error err => .error err
    | .ok acc2 => scanEvents triggers acc2 es

/-- Python's `str.strip()`: drop leading and trailing whitespace. -/
def pyStrip (s : String) : String :=
  ⟨((s.data.dropWhile Char.isWhitespace).reverse.dropWhile
      Char.isWhitespace).reverse⟩

/-- Trigger-file parsing of lines 92-93:
`[line.strip() for line in f if line.strip()]`. -/
def parsedTriggers (triggerLines : List String) : List String :=
  triggerLines.filterMap fun l => if pyStrip l = "" then none else some (pyStrip l)

/-! ### The Clopper-Pearson interval and `getEff`

`TEfficiency.ClopperPearson` is imported from the external ROOT library and is
not part of this repository, so it is modelled from the specification. -/

/-- Probability mass at `j` of a binomial distribution with `n` trials and
success probability `x`, written to match the binomial theorem `add_pow`. -/
noncomputable def binomPMF (n j : ℕ) (x : ℝ) : ℝ :=
  x ^ j * (1 - x) ^ (n - j) * (n.choose j)

/-- `P(X ≤ k)` for `X` binomial with `n` trials and success probability `x`. -/
noncomputable def binomCdf (n k : ℕ) (x : ℝ) : ℝ :=
  ∑ j ∈ range (k + 1), binomPMF n j x

/-- `P(X ≥ k)` for `X` binomial with `n` trials and success probability `x`. -/
noncomputable def binomTail (n k : ℕ) (x : ℝ) : ℝ :=
  ∑ j ∈ Icc k n, binomPMF n j x

/-- Modelled from the spec: `TEfficiency.ClopperPearson` of the external ROOT
library (imported at line 4 of the script, its code absent from this
repository).  Following §4.3 of the specification, the bounds are the
Beta-quantile solutions of the one-sided binomial tail equations at tail mass
`(1 - level)/2`; via the standard identity between the regularized incomplete
Beta function and binomial tails, the upper bound for `passed < total` is the
least `p ∈ [0,1]` with `P(X ≤ passed) ≤ (1-level)/2`, the lower bound for
`0 < passed` the greatest `p ∈ [0,1]` with `P(X ≥ passed) ≤ (1-level)/2`, and
the spec's edge cases hold exactly: `passed = 0` gives lower bound `0`,
`passed = total` gives upper bound `1`. -/
noncomputable def clopperPearson (total passed : ℕ) (level : ℝ) (upper : Bool) :
    ℝ :=
  if upper then
    if total ≤ passed then 1
    else sInf {p : ℝ | p ∈ Set.Icc (0 : ℝ) 1 ∧
      binomCdf total passed p ≤ (1 - level) / 2}
  else
    if passed = 0 then 0
    else sSup {p : ℝ | p ∈ Set.Icc (0 : ℝ) 1 ∧
      binomTail total passed p ≤ (1 - level) / 2}

/-- The counts the script hands to `TEfficiency.ClopperPearson` are converted
to C++ `Int_t`; nonnegative non-integral values truncate toward zero.  (All
claims use natural-number counts, where this is the identity.) -/
def toCount (q : ℚ) : ℕ := q.floor.toNat

/-- `getEff` (lines 34-38): `eff = sel/tot` (raising `ZeroDivisionError` when
`tot == 0`, before `ClopperPearson` is reached), then the two Clopper-Pearson
bounds at confidence level 0.683, returned as the deltas
`(up - eff, eff - dn)`. -/
noncomputable def getEff (tot sel : ℚ) : Except PyErr (ℚ × ℝ × ℝ) :=
  if tot = 0 then .error .zeroDivisionError
  else
    let eff : ℚ := sel / tot
    let up : ℝ := clopperPearson (toCount tot) (toCount sel) (683 / 1000) true
    let dn : ℝ := clopperPearson (toCount tot) (toCount sel) (683 / 1000) false
    .ok (eff, up - (eff : ℝ), (eff : ℝ) - dn)

/-- The statistics dictionary returned by `filter_events` (lines 142-146). -/
structure Stats where
  total_events : ℕ
  passed_events : ℕ
  percentage : ℚ
deriving DecidableEq, Repr

/-- `filter_events` (lines 79-149): parse the trigger list (raising
`ValueError` when it is empty, before any event is read), scan the event
stream, compute the percentage (guarded against an empty stream) and the raw
efficiency via `getEff` (line 133, unguarded: an empty stream raises
`ZeroDivisionError` here), and return the statistics together with the
weighted sum. -/
noncomputable def filter_events (triggerLines : List String)
    (events : List Event) : Except PyErr (Stats × ℚ) :=
  let triggers := parsedTriggers triggerLines
  if triggers.isEmpty then .error .valueError
  else
    match scanEvents triggers accum0 events with
    | .error err => .error err
    | .ok acc =>
      let percentage : ℚ :=
        if 0 < acc.total_events then
          ((acc.passed_events_count : ℚ) / (acc.total_events : ℚ)) * 100
        else 0
      match getEff (acc.total_events : ℚ) (acc.passed_events_count : ℚ) with
      | .error err => .error err
      | .ok _ =>
        .ok (⟨acc.total_events, acc.passed_events_count, percentage⟩,
             acc.weighted_events)

/-- The values `get_genEventSumw` communicates to its caller: the summed
generator event count (printed at line 23), the (possibly rescaled) sum of
weights (returned at line 32) and the effective entry count it reports
(printed at line 30; equal to the input entry count unless capped). -/
structure GenSumw where
  genEventCount : ℕ
  genEventSumw : ℚ
  effectiveEntries : ℤ
deriving DecidableEq, Repr

/-- `get_genEventSumw` (lines 6-32): sum `genEventCount` and `genEventSumw`
over the `Runs` entries; when `maxEntriesPerSample` is given and the file's
entry count exceeds it, rescale `genEventSumw` by
`maxEntriesPerSample/nEntries` and report `maxEntriesPerSample` as the entry
count.  The division of line 28 raises `ZeroDivisionError` when
`nEntries == 0` (reachable only with a negative cap, since `nEntries ≥ 0`). -/
def get_genEventSumw (runs : List RunMeta) (nEntries : ℕ)
    (maxEntriesPerSample : Option ℤ) : Except PyErr GenSumw :=
  let genEventCount : ℕ := (runs.map RunMeta.genEventCount).sum
  let genEventSumw : ℚ := (runs.map RunMeta.genEventSumw).sum
  match maxEntriesPerSample with
  | none => .ok ⟨genEventCount, genEventSumw, (nEntries : ℤ)⟩
  | some M =>
    if M < (nEntries : ℤ) then
      if nEntries = 0 then .error .zeroDivisionError
      else .ok ⟨genEventCount, genEventSumw * (M : ℚ) / (nEntries : ℚ), M⟩
    else .ok ⟨genEventCount, genEventSumw, (nEntries : ℤ)⟩

/-- The efficiency-relevant values the `__main__` block reports, in print
order: the raw efficiency printed inside `filter_events` (line 138), the
ratio `weighted_events/genEventSumw` (line 201) and the weighted efficiency
point estimate (line 202). -/
inductive Output where
  | rawEff (point : ℚ)
  | weightedRatio (value : ℚ)
  | weightedEff (point : ℚ)
deriving DecidableEq, Repr

/-- The `__main__` block (lines 193-202): run `filter_events`, then
`get_genEventSumw` (no cap), then print `weighted_events/genEventSumw`
(raising `ZeroDivisionError` when the sum of weights is zero) and the
weighted efficiency from `getEff(genEventSumw, weighted_events)`.  The result
lists the reported values in order together with the exception, if any, that
aborted the run; values reported before an abort are kept. -/
noncomputable def mainRun (triggerLines : List String) (events : List Event)
    (runs : List RunMeta) : List Output × Option PyErr :=
  match filter_events triggerLines events with
  | .error err => ([], some err)
  | .ok (stats, weighted) =>
    let raw : Output :=
      .rawEff ((stats.passed_events : ℚ) / (stats.total_events : ℚ))
    match get_genEventSumw runs events.length none with
    | .error err => ([raw], some err)
    | .ok g =>
      if g.genEventSumw = 0 then ([raw], some .zeroDivisionError)
      else
        match getEff g.genEventSumw weighted with
        | .error err => ([raw, .weightedRatio (weighted / g.genEventSumw)],
                         some err)
        | .ok _ =>
          ([raw, .weightedRatio (weighted / g.genEventSumw),
            .weightedEff (weighted / g.genEventSumw)], none)

/-! ### Specification-side predicates (from the claims' wording) -/

/-- The claims' selection predicate: the logical OR of the configured trigger
flags is true and the reference flag equals 1. -/
def selectedEvent (triggers : List String) (e : Event) : Bool :=
  (triggers.any fun t => ((e.flags.lookup t).getD false)) &&
    decide (e.passZZ4l.getD 0 = 1)

/-- The weight of a record (0 for an absent branch; only used on records whose
weight is present). -/
def eventWeight (e : Event) : ℚ := e.overallEventWeight.getD 0

/-- Every field lookup the scan can perform on `e` succeeds: all configured
trigger branches, the reference flag and the weight are present. -/
def allFields (triggers : List String) (e : Event) : Prop :=
  (∀ t ∈ triggers, (e.flags.lookup t).isSome) ∧
    e.passZZ4l.isSome ∧ e.overallEventWeight.isSome

instance (triggers : List String) (e : Event) :
    Decidable (allFields triggers e) := by
  unfold allFields
  infer_instance

/-! ### Scan-loop characterization lemmas -/

lemma anyTrigger_eq_ok (e : Event) (ts : List String)
    (h : ∀ t ∈ ts, (e.flags.lookup t).isSome) :
    anyTrigger e ts = .ok (ts.any fun t => (e.flags.lookup t).getD false) := by
  induction ts with
  | nil => rfl
  | cons t ts ih =>
    obtain ⟨b, hb⟩ := Option.isSome_iff_exists.mp (h t (by simp))
    cases b with
    | false =>
      simp only [anyTrigger, getattrTrigger, hb,
        ih fun t' ht' => h t' (List.mem_cons_of_mem _ ht'), List.any_cons]
      simp [hb]
    | true => simp [anyTrigger, getattrTrigger, hb]

lemma processEvent_eq_ok (ts : List String) (acc : Accum) (e : Event)
    (h : allFields ts e) :
    processEvent ts acc e =
      .ok ⟨acc.total_events + 1,
           acc.passed_events_count + (if selectedEvent ts e then 1 else 0),
           acc.weighted_events +
             (if selectedEvent ts e then eventWeight e else 0)⟩ := by
  obtain ⟨htrig, href, hw⟩ := h
  obtain ⟨r, hr⟩ := Option.isSome_iff_exists.mp href
  obtain ⟨w, hwv⟩ := Option.isSome_iff_exists.mp hw
  have hany := anyTrigger_eq_ok e ts htrig
  simp only [processEvent, hany, selectedEvent, eventWeight, hr, hwv,
    getattrPassZZ4l, getattrWeight, Option.getD_some]
  cases hb : ts.any fun t => (e.flags.lookup t).getD false with
  | false => simp
  | true =>
    by_cases hr1 : r = 1
    · simp [hr1]
    · simp [hr1]

lemma scanEvents_eq_ok (ts : List String) (es : List Event) (acc : Accum)
    (h : ∀ e ∈ es, allFields ts e) :
    scanEvents ts acc es =
      .ok ⟨acc.total_events + es.length,
           acc.passed_events_count + (es.filter (selectedEvent ts)).length,
           acc.weighted_events +
             ((es.filter (selectedEvent ts)).map eventWeight).sum⟩ := by
  induction es generalizing acc with
  | nil => simp [scanEvents]
  | cons e es ih =>
    have he := h e (by simp)
    simp only [scanEvents, processEvent_eq_ok ts acc e he]
    rw [ih _ fun e' he' => h e' (List.mem_cons_of_mem _ he')]
    by_cases hsel : selectedEvent ts e
    · simp only [hsel, if_true, List.filter_cons_of_pos hsel, List.length_cons,
        List.map_cons, List.sum_cons, Except.ok.injEq, Accum.mk.injEq]
      exact ⟨by omega, by omega, by ring⟩
    · simp only [hsel, if_false, List.filter_cons_of_neg (by simpa using hsel),
        List.length_cons, Except.ok.injEq, Accum.mk.injEq]
      exact ⟨by omega, by simp, by simp⟩

lemma scanEvents_append (ts : List String) (xs ys : List Event) (acc : Accum) :
    scanEvents ts acc (xs ++ ys) =
      match scanEvents ts acc xs with
      | .ok acc2 => scanEvents ts acc2 ys
      | .error err => .error err := by
  induction xs generalizing acc with
  | nil => simp [scanEvents]
  | cons x xs ih =>
    simp only [List.cons_append, scanEvents]
    cases processEvent ts acc x with
    | error err => rfl
    | ok acc2 => exact ih acc2

lemma anyTrigger_eq_error (e : Event) (ts1 ts2 : List String) (t : String)
    (habsent : e.flags.lookup t = none)
    (hfalse : ∀ t' ∈ ts1, e.flags.lookup t' = some false) :
    anyTrigger e (ts1 ++ t :: ts2) = .error .attributeError := by
  induction ts1 with
  | nil => simp [anyTrigger, getattrTrigger, habsent]
  | cons a ts1 ih =>
    have ha := hfalse a (by simp)
    simp only [List.cons_append, anyTrigger, getattrTrigger, ha]
    exact ih fun t' h => hfalse t' (List.mem_cons_of_mem _ h)

lemma processEvent_eq_error (ts : List String) (acc : Accum) (e : Event)
    (h : anyTrigger e ts = .error .attributeError) :
    processEvent ts acc e = .error .attributeError := by
  simp [processEvent, h]

/-! ### Claim C1 -/

/-- C1 (confirmed): for every non-empty trigger list and every finite event
stream on which every field lookup succeeds, the scan loop of `filter_events`
ends with `total_events` equal to the stream length, counts a record as
selected iff the OR of its configured trigger flags is true and its reference
flag equals 1 (the records kept by `selectedEvent`), ends with
`passed_events_count` the number of selected records (hence at most
`total_events`) and with `weighted_events` the sum of exactly the selected
records' weights. -/
theorem c1_scan_characterization (triggers : List String) (events : List Event)
    (hne : triggers ≠ [])
    (hok : ∀ e ∈ events, allFields triggers e) :
    scanEvents triggers accum0 events =
      .ok ⟨events.length, (events.filter (selectedEvent triggers)).length,
           ((events.filter (selectedEvent triggers)).map eventWeight).sum⟩ ∧
    (events.filter (selectedEvent triggers)).length ≤ events.length := by
  refine ⟨?_, List.length_filter_le _ _⟩
  simpa [accum0] using scanEvents_eq_ok triggers events accum0 hok

theorem c1_witness :
    (["A"] : List String) ≠ [] ∧
    (∀ e ∈ ([⟨[("A", true)], some 1, some 2⟩] : List Event),
      allFields ["A"] e) ∧
    (scanEvents ["A"] accum0 [⟨[("A", true)], some 1, some 2⟩] =
      .ok ⟨([⟨[("A", true)], some 1, some 2⟩] : List Event).length,
           (List.filter (selectedEvent ["A"])
             ([⟨[("A", true)], some 1, some 2⟩] : List Event)).length,
           (List.map eventWeight (List.filter (selectedEvent ["A"])
             ([⟨[("A", true)], some 1, some 2⟩] : List Event))).sum⟩ ∧
     (List.filter (selectedEvent ["A"])
         ([⟨[("A", true)], some 1, some 2⟩] : List Event)).length ≤
       ([⟨[("A", true)], some 1, some 2⟩] : List Event).length) :=
  ⟨by decide, by decide, c1_scan_characterization _ _ (by decide) (by decide)⟩

/-- The specification's concrete scenario: triggers {A, B}, five records with
reference flags [1,1,1,0,1], (A,B) flags [(T,F),(F,F),(F,F),(T,T),(F,F)] and
weights [1,2,1,5,3] give totalSeen 5, totalPassed 1, weightedPassed 1. -/
lemma spec_scenario_scan :
    scanEvents ["A", "B"] accum0
      [⟨[("A", true), ("B", false)], some 1, some 1⟩,
       ⟨[("A", false), ("B", false)], some 1, some 2⟩,
       ⟨[("A", false), ("B", false)], some 1, some 1⟩,
       ⟨[("A", true), ("B", true)], some 0, some 5⟩,
       ⟨[("A", false), ("B", false)], some 1, some 3⟩] = .ok ⟨5, 1, 1⟩ := by
  simp [scanEvents, processEvent, anyTrigger, getattrTrigger,
    getattrPassZZ4l, getattrWeight, accum0, List.lookup]

/-! ### Claim C3 -/

/-- C3 (confirmed): for every selected count, `getEff` with `tot = 0` fails
with `ZeroDivisionError` (the spec's `DivisionByZeroError`) rather than
returning any value: `eff = sel/tot` raises before `ClopperPearson` is
reached. -/
theorem c3_zero_total (sel : ℚ) :
    getEff 0 sel = .error .zeroDivisionError := rfl

/-! ### Claim C4 -/

/-- C4 (confirmed): with a nonnegative cap set and `nEntries` above it,
`get_genEventSumw` returns `sumw * cap / nEntries` and reports the effective
entry count as the cap; `950` summed weight with `1000` entries and cap `500`
yields `475`; with the cap unset, or `nEntries` at most the cap, the sum is
returned unchanged. -/
theorem c4_normalization_scaling (runs : List RunMeta) (nEntries : ℕ) (M : ℤ)
    (hM : 0 ≤ M) :
    (M < (nEntries : ℤ) →
      get_genEventSumw runs nEntries (some M) =
        .ok ⟨(runs.map RunMeta.genEventCount).sum,
             (runs.map RunMeta.genEventSumw).sum * (M : ℚ) / (nEntries : ℚ),
             M⟩) ∧
    ((nEntries : ℤ) ≤ M →
      get_genEventSumw runs nEntries (some M) =
        .ok ⟨(runs.map RunMeta.genEventCount).sum,
             (runs.map RunMeta.genEventSumw).sum, (nEntries : ℤ)⟩) ∧
    get_genEventSumw runs nEntries none =
      .ok ⟨(runs.map RunMeta.genEventCount).sum,
           (runs.map RunMeta.genEventSumw).sum, (nEntries : ℤ)⟩ ∧
    get_genEventSumw [⟨1000, 950⟩] 1000 (some 500) = .ok ⟨1000, 475, 500⟩ := by
  refine ⟨?_, ?_, rfl, by norm_num [get_genEventSumw]⟩
  · intro h
    have h0 : nEntries ≠ 0 := by omega
    simp [get_genEventSumw, h, h0]
  · intro h
    simp [get_genEventSumw, not_lt.mpr h]

theorem c4_witness :
    (0 : ℤ) ≤ 500 ∧
    (((500 : ℤ) < ((1000 : ℕ) : ℤ) →
      get_genEventSumw [⟨1000, 950⟩] 1000 (some 500) =
        .ok ⟨(List.map RunMeta.genEventCount [⟨1000, 950⟩]).sum,
             (List.map RunMeta.genEventSumw [⟨1000, 950⟩]).sum * ((500 : ℤ) : ℚ) /
               ((1000 : ℕ) : ℚ),
             500⟩) ∧
    (((1000 : ℕ) : ℤ) ≤ 500 →
      get_genEventSumw [⟨1000, 950⟩] 1000 (some 500) =
        .ok ⟨(List.map RunMeta.genEventCount [⟨1000, 950⟩]).sum,
             (List.map RunMeta.genEventSumw [⟨1000, 950⟩]).sum, ((1000 : ℕ) : ℤ)⟩) ∧
    get_genEventSumw [⟨1000, 950⟩] 1000 none =
      .ok ⟨(List.map RunMeta.genEventCount [⟨1000, 950⟩]).sum,
           (List.map RunMeta.genEventSumw [⟨1000, 950⟩]).sum, ((1000 : ℕ) : ℤ)⟩ ∧
    get_genEventSumw [⟨1000, 950⟩] 1000 (some 500) = .ok ⟨1000, 475, 500⟩) :=
  ⟨by decide, c4_normalization_scaling [⟨1000, 950⟩] 1000 500 (by decide)⟩

/-! ### Claim C5 -/

/-- C5 (confirmed): normalization is idempotent.  For `n > m > 0`, the first
call scales the sum to some `s` reporting effective count `m`; feeding `s`
back in with entry count `m` and cap `m` returns `s` unchanged (the scaling
branch is skipped), for any generator event count. -/
theorem c5_normalize_idempotent (runs : List RunMeta) (n m : ℕ)
    (h1 : m < n) (h2 : 0 < m) :
    ∃ s : ℚ,
      get_genEventSumw runs n (some (m : ℤ)) =
        .ok ⟨(runs.map RunMeta.genEventCount).sum, s, (m : ℤ)⟩ ∧
      ∀ c : ℕ, get_genEventSumw [⟨c, s⟩] m (some (m : ℤ)) =
        .ok ⟨c, s, (m : ℤ)⟩ := by
  refine ⟨(runs.map RunMeta.genEventSumw).sum * ((m : ℤ) : ℚ) / (n : ℚ),
    ?_, ?_⟩
  · have hc : (m : ℤ) < (n : ℤ) := by exact_mod_cast h1
    have h0 : n ≠ 0 := by omega
    simp [get_genEventSumw, hc, h0]
  · intro c
    simp [get_genEventSumw]

theorem c5_witness :
    (1 : ℕ) < 2 ∧ (0 : ℕ) < 1 ∧
    (∃ s : ℚ,
      get_genEventSumw [⟨7, 9⟩] 2 (some ((1 : ℕ) : ℤ)) =
        .ok ⟨(List.map RunMeta.genEventCount [⟨7, 9⟩]).sum, s, ((1 : ℕ) : ℤ)⟩ ∧
      ∀ c : ℕ, get_genEventSumw [⟨c, s⟩] 1 (some ((1 : ℕ) : ℤ)) =
        .ok ⟨c, s, ((1 : ℕ) : ℤ)⟩) :=
  ⟨by decide, by decide, c5_normalize_idempotent [⟨7, 9⟩] 2 1 (by decide) (by decide)⟩

/-! ### Claim C6 -/

/-- C6 (confirmed): when the parsed trigger list is empty, `filter_events`
fails with `ValueError` (the spec's `ConfigurationError`) before the scan
begins; the result is this error for every event stream, so no record is
consumed and the accumulator is never touched. -/
theorem c6_empty_trigger_config (triggerLines : List String)
    (events : List Event) (h : parsedTriggers triggerLines = []) :
    filter_events triggerLines events = .error .valueError := by
  simp [filter_events, h]

theorem c6_witness :
    parsedTriggers [" ", ""] = [] ∧
    filter_events [" ", ""] [⟨[("A", true)], some 1, some 1⟩] =
      .error .valueError :=
  ⟨by decide, c6_empty_trigger_config _ _ (by decide)⟩

/-! ### Claim C7 -/

/-- C7 counterexample: the trigger loop breaks at the first true flag, so a
configured trigger (`"B"`) absent from the record is never looked up when an
earlier trigger (`"A"`) is true: the scan succeeds instead of failing with
`AttributeError`, refuting the claim as stated. -/
theorem c7_counterexample :
    (Event.flags ⟨[("A", true)], some 1, some 1⟩).lookup "B" = none ∧
    scanEvents ["A", "B"] accum0 [⟨[("A", true)], some 1, some 1⟩] =
      .ok ⟨1, 1, 1⟩ := by
  constructor
  · decide
  · simp [scanEvents, processEvent, anyTrigger, getattrTrigger,
      getattrPassZZ4l, getattrWeight, accum0, List.lookup]

/-- C7 (corrected): if a configured trigger is absent from a record's flag
mapping and every trigger before it in the configured order is present with a
false flag, the scan fails with `AttributeError` (the spec's
`MissingFieldError`) when that record is reached — the absent flag is never
silently treated as false.  (An absent trigger shadowed by an earlier true
flag is not looked up at all; see the counterexample.) -/
theorem c7_missing_trigger (ts1 ts2 : List String) (t : String) (e : Event)
    (pre post : List Event)
    (hpre : ∀ e' ∈ pre, allFields (ts1 ++ t :: ts2) e')
    (habsent : e.flags.lookup t = none)
    (hfalse : ∀ t' ∈ ts1, e.flags.lookup t' = some false) :
    scanEvents (ts1 ++ t :: ts2) accum0 (pre ++ e :: post) =
      .error .attributeError := by
  rw [scanEvents_append, scanEvents_eq_ok _ _ _ hpre]
  have herr := anyTrigger_eq_error e ts1 ts2 t habsent hfalse
  show scanEvents (ts1 ++ t :: ts2) _ (e :: post) = _
  simp [scanEvents, processEvent_eq_error _ _ _ herr]

theorem c7_witness :
    (∀ e' ∈ ([⟨[("A", false), ("B", true), ("C", false)], some 1, some 1⟩] :
        List Event), allFields (["A"] ++ "B" :: ["C"]) e') ∧
    (Event.flags ⟨[("A", false)], some 1, some 1⟩).lookup "B" = none ∧
    (∀ t' ∈ (["A"] : List String),
      (Event.flags ⟨[("A", false)], some 1, some 1⟩).lookup t' = some false) ∧
    scanEvents (["A"] ++ "B" :: ["C"]) accum0
      ([⟨[("A", false), ("B", true), ("C", false)], some 1, some 1⟩] ++
        ⟨[("A", false)], some 1, some 1⟩ :: []) = .error .attributeError :=
  ⟨by decide, by decide, by decide,
    c7_missing_trigger ["A"] ["C"] "B" ⟨[("A", false)], some 1, some 1⟩
      [⟨[("A", false), ("B", true), ("C", false)], some 1, some 1⟩] []
      (by decide) (by decide) (by decide)⟩

/-! ### Claim C8 -/

/-- C8 counterexample: scaling with a zero entry count (reachable only with a
negative cap, since the entry count is nonnegative) fails with
`ZeroDivisionError`, not with the `ValueError` the script uses for
configuration errors — there is no zero-entry guard in `get_genEventSumw`. -/
theorem c8_counterexample :
    get_genEventSumw [⟨0, 1⟩] 0 (some (-1)) = .error .zeroDivisionError ∧
    PyErr.zeroDivisionError ≠ PyErr.valueError := ⟨rfl, by decide⟩

/-- C8 (corrected): `get_genEventSumw` has no zero-entry configuration check.
With a zero entry count and a nonnegative cap, the scaling branch is skipped
and the sum is returned unchanged; with a negative cap the scaling division
hits the zero entry count and fails with `ZeroDivisionError`, not a
configuration error. -/
theorem c8_zero_entries (runs : List RunMeta) (M : ℤ) :
    (M < 0 →
      get_genEventSumw runs 0 (some M) = .error .zeroDivisionError) ∧
    (0 ≤ M →
      get_genEventSumw runs 0 (some M) =
        .ok ⟨(runs.map RunMeta.genEventCount).sum,
             (runs.map RunMeta.genEventSumw).sum, 0⟩) := by
  constructor
  · intro h
    simp only [get_genEventSumw]
    rw [if_pos (show M < ((0 : ℕ) : ℤ) by omega)]
    simp
  · intro h
    simp only [get_genEventSumw]
    rw [if_neg (show ¬ M < ((0 : ℕ) : ℤ) by omega)]
    simp

theorem c8_witness :
    ((-1 : ℤ) < 0 →
      get_genEventSumw [⟨0, 1⟩] 0 (some (-1)) = .error .zeroDivisionError) ∧
    ((0 : ℤ) ≤ -1 →
      get_genEventSumw [⟨0, 1⟩] 0 (some (-1)) =
        .ok ⟨(List.map RunMeta.genEventCount [⟨0, 1⟩]).sum,
             (List.map RunMeta.genEventSumw [⟨0, 1⟩]).sum, 0⟩) :=
  c8_zero_entries [⟨0, 1⟩] (-1)

/-! ### Claim C9 -/

/-- C9 counterexample: on a selected record with negative weight the scan
returns a plain successful accumulator with the weight added — the script has
no warning mechanism of any kind, so no `DataQualityWarning` is reported. -/
theorem c9_counterexample :
    scanEvents ["A"] accum0 [⟨[("A", true)], some 1, some (-5)⟩] =
      .ok ⟨1, 1, -5⟩ := by
  simp [scanEvents, processEvent, anyTrigger, getattrTrigger,
    getattrPassZZ4l, getattrWeight, accum0, List.lookup]

/-- C9 (corrected): negative weights do not abort the scan and are added to
`weighted_events` exactly as any other weight (the accumulation formula is
unchanged) — but silently: no warning is recorded or reported. -/
theorem c9_negative_weight_no_abort (triggers : List String)
    (events : List Event)
    (hok : ∀ e ∈ events, allFields triggers e)
    (hneg : ∃ e ∈ events, eventWeight e < 0) :
    scanEvents triggers accum0 events =
      .ok ⟨events.length, (events.filter (selectedEvent triggers)).length,
           ((events.filter (selectedEvent triggers)).map eventWeight).sum⟩ := by
  simpa [accum0] using scanEvents_eq_ok triggers events accum0 hok

theorem c9_witness :
    (∀ e ∈ ([⟨[("A", true)], some 1, some (-5)⟩] : List Event),
      allFields ["A"] e) ∧
    (∃ e ∈ ([⟨[("A", true)], some 1, some (-5)⟩] : List Event),
      eventWeight e < 0) ∧
    scanEvents ["A"] accum0 [⟨[("A", true)], some 1, some (-5)⟩] =
      .ok ⟨([⟨[("A", true)], some 1, some (-5)⟩] : List Event).length,
           (List.filter (selectedEvent ["A"])
             [⟨[("A", true)], some 1, some (-5)⟩]).length,
           (List.map eventWeight (List.filter (selectedEvent ["A"])
             [⟨[("A", true)], some 1, some (-5)⟩])).sum⟩ :=
  ⟨by decide, by decide,
    c9_negative_weight_no_abort ["A"] _ (by decide) (by decide)⟩

/-! ### Claim C10 -/

/-- C10 counterexample: with an empty event stream the raw denominator
`total_events` is zero while the normalized denominator (sum of weights, 5)
is not; the claim says the weighted efficiency can still be reported, but the
`getEff` call inside `filter_events` (line 133) raises first, so the run
aborts with no efficiency reported at all. -/
theorem c10_counterexample :
    mainRun ["A"] [] [⟨1, 5⟩] = ([], some .zeroDivisionError) ∧
    (List.map RunMeta.genEventSumw [⟨1, 5⟩]).sum ≠ 0 := by
  constructor
  · rfl
  · simp

lemma filter_events_eq_ok (triggerLines : List String) (events : List Event)
    (hne : (parsedTriggers triggerLines).isEmpty = false)
    (hok : ∀ e ∈ events, allFields (parsedTriggers triggerLines) e)
    (hlen : events.length ≠ 0) :
    filter_events triggerLines events =
      .ok (⟨events.length,
            (events.filter (selectedEvent (parsedTriggers triggerLines))).length,
            ((events.filter (selectedEvent (parsedTriggers triggerLines))).length : ℚ) /
              (events.length : ℚ) * 100⟩,
           ((events.filter
              (selectedEvent (parsedTriggers triggerLines))).map eventWeight).sum) := by
  have hscan := scanEvents_eq_ok (parsedTriggers triggerLines) events accum0 hok
  simp only [accum0] at hscan
  simp only [zero_add] at hscan
  have hq : ((events.length : ℚ)) ≠ 0 := by exact_mod_cast hlen
  simp only [filter_events, hne, Bool.false_eq_true, if_false, accum0, hscan]
  simp [getEff, hq, hlen, Nat.pos_of_ne_zero hlen]

/-- C10 (corrected): independence holds in one direction only.  When the
event stream is nonempty (raw denominator nonzero) and the normalized sum of
weights is zero, the raw efficiency is still reported before the
`ZeroDivisionError` of the `weighted_events/genEventSumw` division aborts the
run; the weighted efficiency is never reached.  (In the opposite direction —
zero `total_events` — nothing is reported; see the counterexample.) -/
theorem c10_one_sided_independence (triggerLines : List String)
    (events : List Event) (runs : List RunMeta)
    (hne : parsedTriggers triggerLines ≠ [])
    (hok : ∀ e ∈ events, allFields (parsedTriggers triggerLines) e)
    (hnonempty : events ≠ [])
    (hzero : (runs.map RunMeta.genEventSumw).sum = 0) :
    ∃ p : ℚ, mainRun triggerLines events runs =
      ([.rawEff p], some .zeroDivisionError) := by
  have hEmpty : (parsedTriggers triggerLines).isEmpty = false := by
    simpa [List.isEmpty_iff] using hne
  have hlen : events.length ≠ 0 := by
    simpa [List.length_eq_zero] using hnonempty
  refine ⟨((events.filter (selectedEvent (parsedTriggers triggerLines))).length : ℚ) /
    (events.length : ℚ), ?_⟩
  rw [mainRun, filter_events_eq_ok triggerLines events hEmpty hok hlen]
  simp [get_genEventSumw, hzero]

theorem c10_witness :
    parsedTriggers ["A"] ≠ [] ∧
    (∀ e ∈ ([⟨[("A", true)], some 1, some 2⟩] : List Event),
      allFields (parsedTriggers ["A"]) e) ∧
    ([⟨[("A", true)], some 1, some 2⟩] : List Event) ≠ [] ∧
    (List.map RunMeta.genEventSumw [⟨3, 0⟩]).sum = 0 ∧
    (∃ p : ℚ, mainRun ["A"] [⟨[("A", true)], some 1, some 2⟩] [⟨3, 0⟩] =
      ([.rawEff p], some .zeroDivisionError)) :=
  ⟨by decide, by decide, by decide, by simp,
    c10_one_sided_independence ["A"] _ _ (by decide) (by decide) (by decide)
      (by simp)⟩

/-! ### Binomial facts for the Clopper-Pearson bracketing (claim C2) -/

lemma binomPMF_nonneg {n j : ℕ} {x : ℝ} (h0 : 0 ≤ x) (h1 : x ≤ 1) :
    0 ≤ binomPMF n j x := by
  have h2 : (0 : ℝ) ≤ 1 - x := by linarith
  unfold binomPMF
  positivity

lemma sum_binomPMF (n : ℕ) (x : ℝ) :
    ∑ j ∈ range (n + 1), binomPMF n j x = 1 := by
  have h := add_pow x (1 - x) n
  rw [show x + (1 - x) = (1 : ℝ) by ring, one_pow] at h
  simpa [binomPMF] using h.symm

lemma binomCdf_add_binomTail (n k : ℕ) (hk1 : 1 ≤ k) (hkn : k ≤ n) (x : ℝ) :
    binomCdf n (k - 1) x + binomTail n k x = 1 := by
  rw [binomCdf, binomTail, show k - 1 + 1 = k by omega,
    ← Nat.Ico_zero_eq_range, ← Nat.Ico_succ_right,
    Finset.sum_Ico_consecutive _ (Nat.zero_le k) (by omega),
    Nat.Ico_zero_eq_range]
  exact sum_binomPMF n x

lemma binomCdf_eq_binomTail (n k : ℕ) (hk : k ≤ n) (x : ℝ) :
    binomCdf n k x = binomTail n (n - k) (1 - x) := by
  rw [binomCdf, binomTail]
  refine Finset.sum_nbij' (fun j => n - j) (fun i => n - i) ?_ ?_ ?_ ?_ ?_
  · intro a ha
    simp only [Finset.mem_range] at ha
    simp only [Finset.mem_Icc]
    omega
  · intro a ha
    simp only [Finset.mem_Icc] at ha
    simp only [Finset.mem_range]
    omega
  · intro a ha
    simp only [Finset.mem_range] at ha
    dsimp only
    omega
  · intro a ha
    simp only [Finset.mem_Icc] at ha
    dsimp only
    omega
  · intro a ha
    simp only [Finset.mem_range] at ha
    have han : a ≤ n := by omega
    rw [binomPMF, binomPMF, Nat.choose_symm han,
      show n - (n - a) = a by omega, show (1 : ℝ) - (1 - x) = x by ring]
    ring

lemma binomCdf_one_eq_zero (n k : ℕ) (hk : k < n) : binomCdf n k 1 = 0 := by
  rw [binomCdf]
  refine Finset.sum_eq_zero fun j hj => ?_
  simp only [Finset.mem_range] at hj
  rw [binomPMF, sub_self, zero_pow (by omega : n - j ≠ 0)]
  ring

lemma binomTail_zero_eq_zero (n k : ℕ) (hk : 1 ≤ k) : binomTail n k 0 = 0 := by
  rw [binomTail]
  refine Finset.sum_eq_zero fun j hj => ?_
  simp only [Finset.mem_Icc] at hj
  rw [binomPMF, zero_pow (by omega : j ≠ 0)]
  ring

lemma sub_mul_choose (n j : ℕ) (hn : 1 ≤ n) :
    (n - j) * n.choose j = n * (n - 1).choose j := by
  rcases le_or_lt n j with h | h
  · rw [Nat.sub_eq_zero_of_le h, zero_mul,
      Nat.choose_eq_zero_of_lt (by omega), mul_zero]
  · have h1 := Nat.choose_succ_right_eq n j
    have h2 := Nat.succ_mul_choose_eq (n - 1) j
    rw [Nat.succ_eq_add_one, Nat.sub_add_cancel hn] at h2
    rw [mul_comm, ← h1, h2]

lemma hasDerivAt_binomCdf (n k : ℕ) (hk : k < n) (x : ℝ) :
    HasDerivAt (fun y => binomCdf n k y)
      (-((n : ℝ) * ((n - 1).choose k) * x ^ k * (1 - x) ^ (n - 1 - k))) x := by
  induction k with
  | zero =>
    have hfun : (fun y => binomCdf n 0 y) = fun y : ℝ => (1 - y) ^ n := by
      funext y
      simp [binomCdf, binomPMF]
    rw [hfun]
    have h2 := ((hasDerivAt_id x).const_sub 1).pow n
    convert h2 using 1
    simp
  | succ k ih =>
    have hk2 : k < n := by omega
    have hfun : (fun y => binomCdf n (k + 1) y) =
        fun y => binomCdf n k y + binomPMF n (k + 1) y := by
      funext y
      rw [binomCdf, binomCdf, Finset.sum_range_succ]
    rw [hfun]
    have h1 : HasDerivAt (fun y : ℝ => y ^ (k + 1))
        (((k : ℝ) + 1) * x ^ k) x := by
      have := hasDerivAt_pow (k + 1) x
      simpa using this
    have h2 : HasDerivAt (fun y : ℝ => (1 - y) ^ (n - (k + 1)))
        (((n - (k + 1) : ℕ) : ℝ) * (1 - x) ^ (n - (k + 1) - 1) * (-1)) x :=
      ((hasDerivAt_id x).const_sub 1).pow (n - (k + 1))
    have h3 : HasDerivAt
        (fun y : ℝ => y ^ (k + 1) * (1 - y) ^ (n - (k + 1)))
        (((k : ℝ) + 1) * x ^ k * (1 - x) ^ (n - (k + 1)) +
          x ^ (k + 1) *
            (((n - (k + 1) : ℕ) : ℝ) * (1 - x) ^ (n - (k + 1) - 1) * (-1))) x :=
      h1.mul h2
    have h4 : HasDerivAt (fun y => binomPMF n (k + 1) y)
        ((((k : ℝ) + 1) * x ^ k * (1 - x) ^ (n - (k + 1)) +
          x ^ (k + 1) *
            (((n - (k + 1) : ℕ) : ℝ) * (1 - x) ^ (n - (k + 1) - 1) * (-1))) *
          (n.choose (k + 1))) x :=
      h3.mul_const ((n.choose (k + 1) : ℝ))
    have h5 := (ih hk2).add h4
    convert h5 using 1
    have id1 : ((k : ℝ) + 1) * (n.choose (k + 1)) =
        (n : ℝ) * ((n - 1).choose k) := by
      have h6 := Nat.succ_mul_choose_eq (n - 1) k
      rw [Nat.succ_eq_add_one, Nat.sub_add_cancel (by omega : 1 ≤ n)] at h6
      have h7 : ((n : ℝ)) * ((n - 1).choose k) =
          (n.choose (k + 1) : ℝ) * ((k : ℝ) + 1) := by
        exact_mod_cast congrArg (fun z : ℕ => (z : ℝ)) h6
      linear_combination -h7
    have id2 : ((n - (k + 1) : ℕ) : ℝ) * (n.choose (k + 1)) =
        (n : ℝ) * ((n - 1).choose (k + 1)) := by
      exact_mod_cast congrArg (fun z : ℕ => (z : ℝ))
        (sub_mul_choose n (k + 1) (by omega))
    rw [show n - 1 - k = n - (k + 1) by omega,
      show n - 1 - (k + 1) = n - (k + 1) - 1 by omega]
    linear_combination
      (x ^ (k + 1) * (1 - x) ^ (n - (k + 1) - 1)) * id2 -
        (x ^ k * (1 - x) ^ (n - (k + 1))) * id1

lemma binomCdf_antitoneOn (n k : ℕ) (hk : k < n) :
    AntitoneOn (fun y => binomCdf n k y) (Set.Icc (0 : ℝ) 1) := by
  refine antitoneOn_of_deriv_nonpos (convex_Icc 0 1) ?_ ?_ ?_
  · exact fun x _ =>
      (hasDerivAt_binomCdf n k hk x).continuousAt.continuousWithinAt
  · intro x _
    exact (hasDerivAt_binomCdf n k hk x).differentiableAt.differentiableWithinAt
  · intro x hx
    rw [interior_Icc] at hx
    rw [(hasDerivAt_binomCdf n k hk x).deriv]
    have h1 : (0 : ℝ) ≤ x := le_of_lt hx.1
    have h2 : (0 : ℝ) ≤ 1 - x := by linarith [hx.2]
    have h3 : (0 : ℝ) ≤ (n : ℝ) * ((n - 1).choose k) * x ^ k *
        (1 - x) ^ (n - 1 - k) := by positivity
    linarith

/-! ### Stirling bounds on the central binomial mass -/

lemma sqrt_pi_le_stirlingSeq {j : ℕ} (hj : 1 ≤ j) :
    Real.sqrt Real.pi ≤ Stirling.stirlingSeq j := by
  obtain ⟨i, rfl⟩ : ∃ i, j = i + 1 := ⟨j - 1, by omega⟩
  have ht : Filter.Tendsto (fun i : ℕ => Stirling.stirlingSeq (i + 1))
      Filter.atTop (nhds (Real.sqrt Real.pi)) :=
    (Filter.tendsto_add_atTop_iff_nat 1).mpr Stirling.tendsto_stirlingSeq_sqrt_pi
  exact Stirling.stirlingSeq'_antitone.le_of_tendsto ht i

lemma stirlingSeq_pos_of_pos {j : ℕ} (hj : 1 ≤ j) :
    0 < Stirling.stirlingSeq j := by
  obtain ⟨i, rfl⟩ : ∃ i, j = i + 1 := ⟨j - 1, by omega⟩
  exact Stirling.stirlingSeq'_pos i

lemma stirlingSeq_anti {i j : ℕ} (hi : 1 ≤ i) (hij : i ≤ j) :
    Stirling.stirlingSeq j ≤ Stirling.stirlingSeq i := by
  obtain ⟨a, rfl⟩ : ∃ a, i = a + 1 := ⟨i - 1, by omega⟩
  obtain ⟨c, rfl⟩ : ∃ c, j = c + 1 := ⟨j - 1, by omega⟩
  exact Stirling.stirlingSeq'_antitone (by omega : a ≤ c)

lemma stirlingSeq_two_eq :
    Stirling.stirlingSeq 2 = Real.exp 1 ^ 2 / 4 := by
  have h4 : Real.sqrt (2 * (2 : ℕ)) = 2 := by
    rw [show (2 * ((2 : ℕ) : ℝ)) = 2 ^ 2 by norm_num]
    exact Real.sqrt_sq (by norm_num)
  rw [Stirling.stirlingSeq, h4]
  have hf : ((Nat.factorial 2 : ℕ) : ℝ) = 2 := by norm_num [Nat.factorial]
  rw [hf]
  have h8 : (2 * (((2 : ℕ) : ℝ) / Real.exp 1) ^ 2) = 8 / Real.exp 1 ^ 2 := by
    rw [div_pow]
    push_cast
    field_simp
    ring
  rw [h8, div_div_eq_mul_div]
  ring

lemma factorial_stirling (j : ℕ) (hj : 1 ≤ j) :
    ((Nat.factorial j : ℕ) : ℝ) = Stirling.stirlingSeq j * Real.sqrt (2 * j) *
      ((j : ℝ) / Real.exp 1) ^ j := by
  have h1 : Real.sqrt (2 * j) ≠ 0 := by
    have : (0 : ℝ) < 2 * j := by
      have : (1 : ℝ) ≤ (j : ℝ) := by exact_mod_cast hj
      linarith
    positivity
  have h2 : ((j : ℝ) / Real.exp 1) ^ j ≠ 0 := by
    apply pow_ne_zero
    apply div_ne_zero
    · exact_mod_cast (by omega : j ≠ 0)
    · exact Real.exp_ne_zero 1
  rw [Stirling.stirlingSeq]
  field_simp
  ring

lemma binomPMF_mode_eq (m b : ℕ) (hm : 1 ≤ m) (hb : 1 ≤ b) :
    binomPMF (m + b) m ((m : ℝ) / (m + b)) =
      Stirling.stirlingSeq (m + b) /
          (Stirling.stirlingSeq m * Stirling.stirlingSeq b) *
        (Real.sqrt (2 * (m + b)) /
          (Real.sqrt (2 * m) * Real.sqrt (2 * b))) := by
  have hm0 : (0 : ℝ) < (m : ℝ) := by exact_mod_cast hm
  have hb0 : (0 : ℝ) < (b : ℝ) := by exact_mod_cast hb
  have hn0 : (0 : ℝ) < ((m : ℝ) + (b : ℝ)) := by linarith
  have hx : (1 : ℝ) - (m : ℝ) / ((m : ℝ) + (b : ℝ)) =
      (b : ℝ) / ((m : ℝ) + (b : ℝ)) := by
    field_simp
  have hsm : (0 : ℝ) < Stirling.stirlingSeq m := stirlingSeq_pos_of_pos hm
  have hsb : (0 : ℝ) < Stirling.stirlingSeq b := stirlingSeq_pos_of_pos hb
  have hsn : (0 : ℝ) < Stirling.stirlingSeq (m + b) :=
    stirlingSeq_pos_of_pos (by omega)
  have hqm : (0 : ℝ) < Real.sqrt (2 * m) := Real.sqrt_pos.mpr (by linarith)
  have hqb : (0 : ℝ) < Real.sqrt (2 * b) := Real.sqrt_pos.mpr (by linarith)
  have hqn : (0 : ℝ) < Real.sqrt (2 * (m + b)) := by
    apply Real.sqrt_pos.mpr
    push_cast
    linarith
  have he : (0 : ℝ) < Real.exp 1 := Real.exp_pos 1
  rw [binomPMF]
  push_cast
  rw [hx, Nat.cast_choose ℝ (show m ≤ m + b by omega),
    show m + b - m = b by omega,
    factorial_stirling (m + b) (by omega), factorial_stirling m hm,
    factorial_stirling b hb]
  push_cast
  rw [div_pow, div_pow, div_pow, div_pow, div_pow]
  rw [show ((m : ℝ) + b) ^ (m + b) = ((m : ℝ) + b) ^ m * ((m : ℝ) + b) ^ b from
    pow_add _ m b, show Real.exp 1 ^ (m + b) = Real.exp 1 ^ m * Real.exp 1 ^ b
    from pow_add _ m b]
  have hpm : (0 : ℝ) < (m : ℝ) ^ m := by positivity
  have hpb : (0 : ℝ) < (b : ℝ) ^ b := by positivity
  have hpnm : (0 : ℝ) < ((m : ℝ) + b) ^ m := by positivity
  have hpnb : (0 : ℝ) < ((m : ℝ) + b) ^ b := by positivity
  have hem : (0 : ℝ) < Real.exp 1 ^ m := by positivity
  have heb : (0 : ℝ) < Real.exp 1 ^ b := by positivity
  field_simp
  ring

/-! ### The binomial distribution puts mass at least 33/200 above its
integral mean -/

lemma binomPMF_mode_lb (m b : ℕ) (hm : 1 ≤ m) (hb : 1 ≤ b) :
    Real.sqrt Real.pi /
        (Stirling.stirlingSeq m * Stirling.stirlingSeq b) *
      (Real.sqrt (2 * (m + b)) /
        (Real.sqrt (2 * m) * Real.sqrt (2 * b))) ≤
    binomPMF (m + b) m ((m : ℝ) / (m + b)) := by
  rw [binomPMF_mode_eq m b hm hb]
  have hsm := stirlingSeq_pos_of_pos hm
  have hsb := stirlingSeq_pos_of_pos hb
  have hR : 0 ≤ Real.sqrt (2 * ((m : ℝ) + b)) /
      (Real.sqrt (2 * m) * Real.sqrt (2 * b)) := by positivity
  refine mul_le_mul_of_nonneg_right ?_ hR
  exact (div_le_div_right (mul_pos hsm hsb)).mpr
    (sqrt_pi_le_stirlingSeq (by omega))

lemma binomPMF_succ_mode (m b i : ℕ) (hi : i < b) :
    binomPMF (m + b) (m + i + 1) ((m : ℝ) / (m + b)) =
      binomPMF (m + b) (m + i) ((m : ℝ) / (m + b)) *
        ((((b - i : ℕ) : ℝ) * m) / (((m : ℝ) + i + 1) * b)) := by
  have hb0 : (0 : ℝ) < b := by exact_mod_cast (by omega : 0 < b)
  have hm0 : (0 : ℝ) ≤ m := Nat.cast_nonneg m
  have hn0 : (0 : ℝ) < (m : ℝ) + b := by linarith
  have hden : ((m : ℝ) + i + 1) ≠ 0 := by positivity
  have hc := Nat.choose_succ_right_eq (m + b) (m + i)
  rw [show m + b - (m + i) = b - i by omega] at hc
  have hcR : ((m + b).choose (m + i + 1) : ℝ) * ((m : ℝ) + i + 1) =
      ((m + b).choose (m + i) : ℝ) * ((b - i : ℕ) : ℝ) := by
    exact_mod_cast congrArg (fun z : ℕ => (z : ℝ)) hc
  have hC : ((m + b).choose (m + i + 1) : ℝ) =
      ((m + b).choose (m + i) : ℝ) * ((b - i : ℕ) : ℝ) / ((m : ℝ) + i + 1) := by
    rw [eq_div_iff hden]
    exact hcR
  have hx : (1 : ℝ) - (m : ℝ) / ((m : ℝ) + (b : ℝ)) =
      (b : ℝ) / ((m : ℝ) + (b : ℝ)) := by field_simp
  rw [binomPMF, binomPMF,
    show m + b - (m + i + 1) = b - i - 1 by omega,
    show m + b - (m + i) = b - i by omega, hC]
  set d := b - i - 1 with hdd
  rw [show b - i = d + 1 by omega, pow_succ, pow_succ]
  push_cast
  rw [hx]
  field_simp
  ring

lemma step_core (u c d : ℝ) (hu : u ≤ 1) (hc0 : 0 ≤ c)
    (hd0 : 0 ≤ d) (hd1 : d ≤ 1) :
    u - c - d ≤ u * ((1 - c) * (1 - d)) := by
  nlinarith [mul_nonneg (sub_nonneg.mpr hu)
      (show (0 : ℝ) ≤ c + d - c * d by
        nlinarith [mul_nonneg hc0 (sub_nonneg.mpr hd1)]),
    mul_nonneg hc0 hd0]

lemma binomPMF_mode_add_lb (m b : ℕ) (hm : 1 ≤ m) (hb : 1 ≤ b) :
    ∀ j, j ≤ b →
      binomPMF (m + b) m ((m : ℝ) / (m + b)) *
        (1 - (j : ℝ) * ((j : ℝ) - 1) / (2 * b) -
          (j : ℝ) * ((j : ℝ) + 1) / (2 * m)) ≤
      binomPMF (m + b) (m + j) ((m : ℝ) / (m + b)) := by
  have hmR : (1 : ℝ) ≤ m := by exact_mod_cast hm
  have hbR : (1 : ℝ) ≤ b := by exact_mod_cast hb
  have hnR : (0 : ℝ) < (m : ℝ) + b := by linarith
  have hx0 : (0 : ℝ) ≤ (m : ℝ) / ((m : ℝ) + b) := by positivity
  have hx1 : (m : ℝ) / ((m : ℝ) + b) ≤ 1 := by
    rw [div_le_one (by linarith)]
    linarith
  have hP : 0 ≤ binomPMF (m + b) m ((m : ℝ) / (m + b)) :=
    binomPMF_nonneg hx0 hx1
  intro j
  induction j with
  | zero => intro _; simp
  | succ j ih =>
    intro hj1
    have hjb : j < b := by omega
    have IH := ih (by omega)
    have hjR0 : (0 : ℝ) ≤ (j : ℝ) := Nat.cast_nonneg j
    have hjbR : (j : ℝ) + 1 ≤ (b : ℝ) := by exact_mod_cast hj1
    have hrec := binomPMF_succ_mode m b j hjb
    have hdenpos : (0 : ℝ) < ((m : ℝ) + j + 1) * b := by positivity
    have hr0 : 0 ≤ (((b - j : ℕ) : ℝ) * m) / (((m : ℝ) + j + 1) * b) := by
      apply div_nonneg _ hdenpos.le
      positivity
    have hj2 : (0 : ℝ) ≤ (j : ℝ) * ((j : ℝ) - 1) := by
      rcases Nat.eq_zero_or_pos j with rfl | hjp
      · simp
      · have : (1 : ℝ) ≤ (j : ℝ) := by exact_mod_cast hjp
        nlinarith
    have hu1 : 1 - (j : ℝ) * ((j : ℝ) - 1) / (2 * b) -
        (j : ℝ) * ((j : ℝ) + 1) / (2 * m) ≤ 1 := by
      have h1 : 0 ≤ (j : ℝ) * ((j : ℝ) - 1) / (2 * b) := by
        apply div_nonneg hj2
        linarith
      have h2 : 0 ≤ (j : ℝ) * ((j : ℝ) + 1) / (2 * m) := by
        apply div_nonneg (by positivity)
        linarith
      linarith
    have hc0 : (0 : ℝ) ≤ (j : ℝ) / b := by
      apply div_nonneg hjR0
      linarith
    have hd0 : (0 : ℝ) ≤ ((j : ℝ) + 1) / ((m : ℝ) + j + 1) := by positivity
    have hd1 : ((j : ℝ) + 1) / ((m : ℝ) + j + 1) ≤ 1 := by
      rw [div_le_one (by positivity)]
      linarith
    have hbne : (b : ℝ) ≠ 0 := by linarith
    have hmj1 : ((m : ℝ) + j + 1) ≠ 0 := by positivity
    have hrcd : (((b - j : ℕ) : ℝ) * m) / (((m : ℝ) + j + 1) * b) =
        (1 - (j : ℝ) / b) * (1 - ((j : ℝ) + 1) / ((m : ℝ) + j + 1)) := by
      rw [Nat.cast_sub hjb.le,
        show (1 - (j : ℝ) / b) = ((b : ℝ) - j) / b by field_simp,
        show (1 - ((j : ℝ) + 1) / ((m : ℝ) + j + 1)) =
          (m : ℝ) / ((m : ℝ) + j + 1) by field_simp,
        div_mul_div_comm]
      rw [div_eq_div_iff (by positivity) (by positivity)]
      ring
    have hstep := step_core
      (1 - (j : ℝ) * ((j : ℝ) - 1) / (2 * b) -
        (j : ℝ) * ((j : ℝ) + 1) / (2 * m))
      ((j : ℝ) / b) (((j : ℝ) + 1) / ((m : ℝ) + j + 1)) hu1 hc0 hd0 hd1
    have hd_le : ((j : ℝ) + 1) / ((m : ℝ) + j + 1) ≤ ((j : ℝ) + 1) / m := by
      rw [div_le_div_iff (by positivity) (by linarith)]
      nlinarith
    have huj1 : 1 - ((j : ℝ) + 1) * (((j : ℝ) + 1) - 1) / (2 * b) -
        ((j : ℝ) + 1) * (((j : ℝ) + 1) + 1) / (2 * m) =
        (1 - (j : ℝ) * ((j : ℝ) - 1) / (2 * b) -
          (j : ℝ) * ((j : ℝ) + 1) / (2 * m)) -
          (j : ℝ) / b - ((j : ℝ) + 1) / m := by
      field_simp
      ring
    have hkey : 1 - ((j : ℝ) + 1) * (((j : ℝ) + 1) - 1) / (2 * b) -
        ((j : ℝ) + 1) * (((j : ℝ) + 1) + 1) / (2 * m) ≤
        (1 - (j : ℝ) * ((j : ℝ) - 1) / (2 * b) -
          (j : ℝ) * ((j : ℝ) + 1) / (2 * m)) *
          ((((b - j : ℕ) : ℝ) * m) / (((m : ℝ) + j + 1) * b)) := by
      rw [huj1, hrcd]
      calc (1 - (j : ℝ) * ((j : ℝ) - 1) / (2 * b) -
            (j : ℝ) * ((j : ℝ) + 1) / (2 * m)) -
            (j : ℝ) / b - ((j : ℝ) + 1) / m ≤
          (1 - (j : ℝ) * ((j : ℝ) - 1) / (2 * b) -
            (j : ℝ) * ((j : ℝ) + 1) / (2 * m)) -
            (j : ℝ) / b - ((j : ℝ) + 1) / ((m : ℝ) + j + 1) := by linarith
        _ ≤ _ := hstep
    have hchain : binomPMF (m + b) m ((m : ℝ) / (m + b)) *
        (1 - ((j : ℝ) + 1) * (((j : ℝ) + 1) - 1) / (2 * b) -
          ((j : ℝ) + 1) * (((j : ℝ) + 1) + 1) / (2 * m)) ≤
        binomPMF (m + b) (m + j) ((m : ℝ) / (m + b)) *
          ((((b - j : ℕ) : ℝ) * m) / (((m : ℝ) + j + 1) * b)) := by
      calc binomPMF (m + b) m ((m : ℝ) / (m + b)) *
            (1 - ((j : ℝ) + 1) * (((j : ℝ) + 1) - 1) / (2 * b) -
              ((j : ℝ) + 1) * (((j : ℝ) + 1) + 1) / (2 * m)) ≤
          binomPMF (m + b) m ((m : ℝ) / (m + b)) *
            ((1 - (j : ℝ) * ((j : ℝ) - 1) / (2 * b) -
              (j : ℝ) * ((j : ℝ) + 1) / (2 * m)) *
              ((((b - j : ℕ) : ℝ) * m) / (((m : ℝ) + j + 1) * b))) :=
            mul_le_mul_of_nonneg_left hkey hP
        _ = (binomPMF (m + b) m ((m : ℝ) / (m + b)) *
            (1 - (j : ℝ) * ((j : ℝ) - 1) / (2 * b) -
              (j : ℝ) * ((j : ℝ) + 1) / (2 * m))) *
              ((((b - j : ℕ) : ℝ) * m) / (((m : ℝ) + j + 1) * b)) := by ring
        _ ≤ binomPMF (m + b) (m + j) ((m : ℝ) / (m + b)) *
              ((((b - j : ℕ) : ℝ) * m) / (((m : ℝ) + j + 1) * b)) :=
            mul_le_mul_of_nonneg_right IH hr0
    calc binomPMF (m + b) m ((m : ℝ) / (m + b)) *
          (1 - ((j + 1 : ℕ) : ℝ) * (((j + 1 : ℕ) : ℝ) - 1) / (2 * b) -
            ((j + 1 : ℕ) : ℝ) * (((j + 1 : ℕ) : ℝ) + 1) / (2 * m)) =
        binomPMF (m + b) m ((m : ℝ) / (m + b)) *
          (1 - ((j : ℝ) + 1) * (((j : ℝ) + 1) - 1) / (2 * b) -
            ((j : ℝ) + 1) * (((j : ℝ) + 1) + 1) / (2 * m)) := by push_cast; ring
      _ ≤ binomPMF (m + b) (m + j) ((m : ℝ) / (m + b)) *
            ((((b - j : ℕ) : ℝ) * m) / (((m : ℝ) + j + 1) * b)) := hchain
      _ = binomPMF (m + b) (m + (j + 1)) ((m : ℝ) / (m + b)) := hrec.symm

lemma sum_cast_mul_sub_one (t : ℕ) :
    ∑ j ∈ range (t + 1), ((j : ℝ) * ((j : ℝ) - 1)) = ((t : ℝ) ^ 3 - t) / 3 := by
  induction t with
  | zero => simp
  | succ t ih =>
    rw [Finset.sum_range_succ, ih]
    push_cast
    ring

lemma sum_cast_mul_add_one (t : ℕ) :
    ∑ j ∈ range (t + 1), ((j : ℝ) * ((j : ℝ) + 1)) =
      (t : ℝ) * ((t : ℝ) + 1) * ((t : ℝ) + 2) / 3 := by
  induction t with
  | zero => simp
  | succ t ih =>
    rw [Finset.sum_range_succ, ih]
    push_cast
    ring

lemma sum_pmf_mode_lb (m b t : ℕ) (hm : 1 ≤ m) (hb : 1 ≤ b) (ht : t ≤ b) :
    binomPMF (m + b) m ((m : ℝ) / (m + b)) *
      (((t : ℝ) + 1) - ((t : ℝ) ^ 3 - t) / (6 * b) -
        (t : ℝ) * ((t : ℝ) + 1) * ((t : ℝ) + 2) / (6 * m)) ≤
    ∑ j ∈ range (t + 1), binomPMF (m + b) (m + j) ((m : ℝ) / (m + b)) := by
  have h1 : ∀ j ∈ range (t + 1),
      binomPMF (m + b) m ((m : ℝ) / (m + b)) *
        (1 - (j : ℝ) * ((j : ℝ) - 1) / (2 * b) -
          (j : ℝ) * ((j : ℝ) + 1) / (2 * m)) ≤
      binomPMF (m + b) (m + j) ((m : ℝ) / (m + b)) := by
    intro j hj
    simp only [Finset.mem_range] at hj
    exact binomPMF_mode_add_lb m b hm hb j (by omega)
  have h2 := Finset.sum_le_sum h1
  have h3 : ∑ j ∈ range (t + 1),
      binomPMF (m + b) m ((m : ℝ) / (m + b)) *
        (1 - (j : ℝ) * ((j : ℝ) - 1) / (2 * b) -
          (j : ℝ) * ((j : ℝ) + 1) / (2 * m)) =
      binomPMF (m + b) m ((m : ℝ) / (m + b)) *
        (((t : ℝ) + 1) - ((t : ℝ) ^ 3 - t) / (6 * b) -
          (t : ℝ) * ((t : ℝ) + 1) * ((t : ℝ) + 2) / (6 * m)) := by
    rw [← Finset.mul_sum]
    congr 1
    rw [Finset.sum_sub_distrib, Finset.sum_sub_distrib, Finset.sum_const,
      Finset.card_range, ← Finset.sum_div, ← Finset.sum_div,
      sum_cast_mul_sub_one, sum_cast_mul_add_one]
    push_cast
    ring
  linarith [h2, h3.ge]

lemma sum_range_le_binomTail (m b t : ℕ) (ht : t ≤ b) {x : ℝ}
    (h0 : 0 ≤ x) (h1 : x ≤ 1) :
    ∑ j ∈ range (t + 1), binomPMF (m + b) (m + j) x ≤ binomTail (m + b) m x := by
  rw [binomTail]
  have he : ∑ j ∈ range (t + 1), binomPMF (m + b) (m + j) x =
      ∑ i ∈ Ico m (m + (t + 1)), binomPMF (m + b) i x := by
    rw [Finset.sum_Ico_eq_sum_range, show m + (t + 1) - m = t + 1 by omega]
  rw [he]
  refine Finset.sum_le_sum_of_subset_of_nonneg ?_ fun i _ _ =>
    binomPMF_nonneg h0 h1
  intro a ha
  simp only [Finset.mem_Ico] at ha
  simp only [Finset.mem_Icc]
  omega

lemma div_bound_aux (a K D S : ℝ) (ha : 0 ≤ a) (hD : 0 < D) (hDK : D ≤ K)
    (hS : a ≤ S) : a / K ≤ S / D := by
  have hK : 0 < K := lt_of_lt_of_le hD hDK
  rw [div_le_div_iff hK hD]
  nlinarith

lemma num_caseA (e s2 : ℝ) (he : e ≤ 2.7182818286) (he0 : 0 < e)
    (hs2 : 1414 / 1000 ≤ s2) :
    (33 : ℝ) / 200 ≤ (1772 : ℝ) / 1000 / (e ^ 2 / 2) * (s2 / 2) := by
  have he2 : e ^ 2 ≤ 7.38905611 := by nlinarith
  have he2' : (0 : ℝ) < e ^ 2 := by positivity
  have hform : (1772 : ℝ) / 1000 / (e ^ 2 / 2) =
      (3544 : ℝ) / 1000 / e ^ 2 := by
    field_simp
    ring
  rw [hform]
  have h1 : (3544 : ℝ) / 1000 / 7.38905611 ≤ (3544 : ℝ) / 1000 / e ^ 2 := by
    rw [div_le_div_iff (by norm_num) he2']
    nlinarith
  have h2 : (1414 : ℝ) / 1000 / 2 ≤ s2 / 2 := by linarith
  calc (33 : ℝ) / 200 ≤
      (3544 : ℝ) / 1000 / 7.38905611 * ((1414 : ℝ) / 1000 / 2) := by norm_num
    _ ≤ (3544 : ℝ) / 1000 / e ^ 2 * ((1414 : ℝ) / 1000 / 2) :=
        mul_le_mul_of_nonneg_right h1 (by norm_num)
    _ ≤ (3544 : ℝ) / 1000 / e ^ 2 * (s2 / 2) :=
        mul_le_mul_of_nonneg_left h2 (by positivity)

lemma num_caseB (e : ℝ) (he : e ≤ 2.7182818286) (he0 : 0 < e) :
    (367 : ℝ) / 1000 ≤
      (1772 : ℝ) / 1000 / (e ^ 4 / 16) * ((1414 : ℝ) / 1000 / 2) := by
  have he2 : e ^ 2 ≤ 7.3890561 := by nlinarith
  have he4 : e ^ 4 ≤ 54.599 := by nlinarith [he2, sq_nonneg e, pow_pos he0 2]
  have he4' : (0 : ℝ) < e ^ 4 := by positivity
  have hform : (1772 : ℝ) / 1000 / (e ^ 4 / 16) =
      (28352 : ℝ) / 1000 / e ^ 4 := by
    field_simp
    ring
  rw [hform]
  have h1 : (28352 : ℝ) / 1000 / 54.599 ≤ (28352 : ℝ) / 1000 / e ^ 4 := by
    rw [div_le_div_iff (by norm_num) he4']
    nlinarith
  calc (367 : ℝ) / 1000 ≤
      (28352 : ℝ) / 1000 / 54.599 * ((1414 : ℝ) / 1000 / 2) := by norm_num
    _ ≤ (28352 : ℝ) / 1000 / e ^ 4 * ((1414 : ℝ) / 1000 / 2) :=
        mul_le_mul_of_nonneg_right h1 (by norm_num)

lemma aux_t_sq (tR σ : ℝ) (ht0 : 0 ≤ tR) (hσ0 : 0 < σ)
    (h1 : tR ≤ 9 / 10 * σ) :
    tR * (tR + 2) ≤ 81 / 100 * σ ^ 2 + 9 / 5 * σ := by nlinarith

lemma aux_sigma_n (σ nR P : ℝ) (hσ1 : 1 ≤ σ) (hn : 0 < nR)
    (h : σ ^ 2 * nR = P) : σ * nR ≤ P := by
  nlinarith [mul_nonneg (mul_nonneg (by linarith : (0 : ℝ) ≤ σ) hn.le)
    (sub_nonneg.mpr hσ1)]

lemma aux_brack (tR mR bR : ℝ) (hm : 1 ≤ mR) (hb : 1 ≤ bR)
    (hLHS : (tR - 1) * tR * mR + tR * (tR + 2) * bR ≤
      261 / 100 * (mR * bR)) :
    (tR - 1) * tR / (6 * bR) + tR * (tR + 2) / (6 * mR) ≤ 87 / 200 := by
  have h6b : (0 : ℝ) < 6 * bR := by linarith
  have h6m : (0 : ℝ) < 6 * mR := by linarith
  rw [div_add_div _ _ (ne_of_gt h6b) (ne_of_gt h6m),
    div_le_iff (by positivity)]
  nlinarith [hLHS]

lemma aux_t_le_b (tR σ sb bR : ℝ) (h1 : tR ≤ 9 / 10 * σ) (h2 : σ ≤ sb)
    (h3 : 1 ≤ sb) (h4 : sb * sb = bR) : tR ≤ bR := by nlinarith

set_option maxHeartbeats 1600000 in
lemma binomTail_mode_ge (m b : ℕ) (hm : 1 ≤ m) (hb : 1 ≤ b) :
    (33 : ℝ) / 200 ≤ binomTail (m + b) m ((m : ℝ) / (m + b)) := by
  have hmR : (1 : ℝ) ≤ m := by exact_mod_cast hm
  have hbR : (1 : ℝ) ≤ b := by exact_mod_cast hb
  have hnR : (0 : ℝ) < (m : ℝ) + b := by linarith
  have hx0 : (0 : ℝ) ≤ (m : ℝ) / ((m : ℝ) + b) := by positivity
  have hx1 : (m : ℝ) / ((m : ℝ) + b) ≤ 1 := by
    rw [div_le_one hnR]
    linarith
  have hP0 : 0 ≤ binomPMF (m + b) m ((m : ℝ) / (m + b)) :=
    binomPMF_nonneg hx0 hx1
  have hsqrtpi : (1772 : ℝ) / 1000 ≤ Real.sqrt Real.pi :=
    (Real.le_sqrt (by norm_num) Real.pi_pos.le).mpr
      (by nlinarith [Real.pi_gt_d6])
  have hsqrt2 : (1414 : ℝ) / 1000 ≤ Real.sqrt 2 :=
    (Real.le_sqrt (by norm_num) (by norm_num)).mpr (by norm_num)
  have he : Real.exp 1 ≤ 2.7182818286 := Real.exp_one_lt_d9.le
  have he0 : (0 : ℝ) < Real.exp 1 := Real.exp_pos 1
  have hsm := stirlingSeq_pos_of_pos hm
  have hsb := stirlingSeq_pos_of_pos hb
  have hd0 : (0 : ℝ) <
      Stirling.stirlingSeq m * Stirling.stirlingSeq b := mul_pos hsm hsb
  have hPlb := binomPMF_mode_lb m b hm hb
  have hsqrt4 : Real.sqrt 4 = 2 := by
    rw [show (4 : ℝ) = 2 ^ 2 by norm_num]
    exact Real.sqrt_sq (by norm_num)
  have hsplit : Real.sqrt (2 * (m : ℝ)) * Real.sqrt (2 * (b : ℝ)) =
      2 * Real.sqrt ((m : ℝ) * b) := by
    rw [← Real.sqrt_mul (by linarith) (2 * (b : ℝ)),
      show (2 * (m : ℝ)) * (2 * (b : ℝ)) = 4 * ((m : ℝ) * b) by ring,
      Real.sqrt_mul (by norm_num) _, hsqrt4]
  have hsqrtn : Real.sqrt (2 * ((m : ℝ) + b)) =
      Real.sqrt 2 * Real.sqrt ((m : ℝ) + b) := Real.sqrt_mul (by norm_num) _
  have hpipos : (0 : ℝ) < Real.sqrt Real.pi :=
    Real.sqrt_pos.mpr Real.pi_pos
  rcases le_or_lt (m * b) (m + b) with hcase | hcase
  · -- small-variance case: the mode alone carries enough mass
    have hcaseR : (m : ℝ) * b ≤ (m : ℝ) + b := by exact_mod_cast hcase
    have htail : binomPMF (m + b) m ((m : ℝ) / (m + b)) ≤
        binomTail (m + b) m ((m : ℝ) / (m + b)) := by
      rw [binomTail]
      exact @Finset.single_le_sum ℕ ℝ _
        (fun j => binomPMF (m + b) j ((m : ℝ) / (m + b))) (Icc m (m + b))
        (fun i _ => binomPMF_nonneg hx0 hx1) m
        (Finset.mem_Icc.mpr ⟨le_refl m, Nat.le_add_right m b⟩)
    have hRlb : Real.sqrt 2 / 2 ≤ Real.sqrt (2 * ((m : ℝ) + b)) /
        (Real.sqrt (2 * m) * Real.sqrt (2 * b)) := by
      rw [hsplit, hsqrtn]
      rw [div_le_div_iff (by norm_num) (by positivity)]
      have h1 : Real.sqrt ((m : ℝ) * b) ≤ Real.sqrt ((m : ℝ) + b) :=
        Real.sqrt_le_sqrt hcaseR
      nlinarith [Real.sqrt_nonneg (2 : ℝ), Real.sqrt_nonneg ((m : ℝ) * b)]
    have hsmu : Stirling.stirlingSeq m ≤ Real.exp 1 / Real.sqrt 2 := by
      rw [← Stirling.stirlingSeq_one]
      exact stirlingSeq_anti (le_refl 1) hm
    have hsbu : Stirling.stirlingSeq b ≤ Real.exp 1 / Real.sqrt 2 := by
      rw [← Stirling.stirlingSeq_one]
      exact stirlingSeq_anti (le_refl 1) hb
    have hprod : Stirling.stirlingSeq m * Stirling.stirlingSeq b ≤
        Real.exp 1 ^ 2 / 2 := by
      have h2 : (Real.exp 1 / Real.sqrt 2) * (Real.exp 1 / Real.sqrt 2) =
          Real.exp 1 ^ 2 / 2 := by
        rw [div_mul_div_comm,
          show Real.sqrt 2 * Real.sqrt 2 = 2 from
            Real.mul_self_sqrt (by norm_num)]
        ring
      calc Stirling.stirlingSeq m * Stirling.stirlingSeq b ≤
          (Real.exp 1 / Real.sqrt 2) * (Real.exp 1 / Real.sqrt 2) :=
            mul_le_mul hsmu hsbu hsb.le (by positivity)
        _ = Real.exp 1 ^ 2 / 2 := h2
    have hstep1 : (1772 : ℝ) / 1000 / (Real.exp 1 ^ 2 / 2) ≤
        Real.sqrt Real.pi /
          (Stirling.stirlingSeq m * Stirling.stirlingSeq b) :=
      div_bound_aux _ _ _ _ (by norm_num) hd0 hprod hsqrtpi
    have hstep2 : ((1772 : ℝ) / 1000 / (Real.exp 1 ^ 2 / 2)) *
        (Real.sqrt 2 / 2) ≤
        Real.sqrt Real.pi /
            (Stirling.stirlingSeq m * Stirling.stirlingSeq b) *
          (Real.sqrt (2 * ((m : ℝ) + b)) /
            (Real.sqrt (2 * m) * Real.sqrt (2 * b))) := by
      apply mul_le_mul hstep1 hRlb (by positivity)
      exact (div_pos hpipos hd0).le
    have hnum : (33 : ℝ) / 200 ≤
        (1772 : ℝ) / 1000 / (Real.exp 1 ^ 2 / 2) * (Real.sqrt 2 / 2) :=
      num_caseA (Real.exp 1) (Real.sqrt 2) he he0 hsqrt2
    linarith [htail, hPlb, hstep2, hnum]
  · -- large-variance case: sum 1 + ⌊0.9 σ⌋ central terms
    have hm2 : 2 ≤ m := by
      by_contra h
      have hm1 : m = 1 := by omega
      rw [hm1, one_mul] at hcase
      omega
    have hb2 : 2 ≤ b := by
      by_contra h
      have hb1 : b = 1 := by omega
      rw [hb1, mul_one] at hcase
      omega
    have hcaseR : (m : ℝ) + b < (m : ℝ) * b := by exact_mod_cast hcase
    set σ := Real.sqrt ((m : ℝ) * b / ((m : ℝ) + b)) with hσdef
    have hσ1 : 1 < σ := by
      rw [hσdef, show (1 : ℝ) = Real.sqrt 1 from Real.sqrt_one.symm]
      apply Real.sqrt_lt_sqrt (by norm_num)
      rw [lt_div_iff hnR]
      linarith
    have hσ0 : (0 : ℝ) < σ := by linarith
    have hσsq : σ ^ 2 = (m : ℝ) * b / ((m : ℝ) + b) := by
      rw [hσdef]
      exact Real.sq_sqrt (by positivity)
    have hσn : σ ^ 2 * ((m : ℝ) + b) = (m : ℝ) * b := by
      rw [hσsq]
      field_simp
    set t := ⌊(9 / 10 : ℝ) * σ⌋₊ with htdef
    have ht1 : (t : ℝ) ≤ 9 / 10 * σ := Nat.floor_le (by positivity)
    have ht2 : (9 : ℝ) / 10 * σ < (t : ℝ) + 1 := Nat.lt_floor_add_one _
    have htR0 : (0 : ℝ) ≤ (t : ℝ) := Nat.cast_nonneg t
    have hσleb : σ ≤ Real.sqrt b := by
      rw [hσdef]
      apply Real.sqrt_le_sqrt
      rw [div_le_iff hnR]
      nlinarith
    have hsqb1 : (1 : ℝ) ≤ Real.sqrt b := by
      rw [show (1 : ℝ) = Real.sqrt 1 from Real.sqrt_one.symm]
      exact Real.sqrt_le_sqrt hbR
    have htbR : (t : ℝ) ≤ (b : ℝ) :=
      aux_t_le_b (t : ℝ) σ (Real.sqrt b) (b : ℝ) ht1 hσleb hsqb1
        (Real.mul_self_sqrt (by linarith))
    have htb : t ≤ b := by exact_mod_cast htbR
    have hsum := sum_pmf_mode_lb m b t hm hb htb
    have htail := sum_range_le_binomTail m b t htb hx0 hx1
    -- the bracket in the sum lower bound is at least 113/200
    have hq1 : (t : ℝ) * ((t : ℝ) + 2) ≤ 81 / 100 * σ ^ 2 + 9 / 5 * σ :=
      aux_t_sq (t : ℝ) σ htR0 hσ0 ht1
    have hq2 : ((t : ℝ) * ((t : ℝ) + 2)) * ((m : ℝ) + b) ≤
        (81 / 100 * σ ^ 2 + 9 / 5 * σ) * ((m : ℝ) + b) :=
      mul_le_mul_of_nonneg_right hq1 hnR.le
    have hq3 : (81 / 100 * σ ^ 2 + 9 / 5 * σ) * ((m : ℝ) + b) =
        81 / 100 * ((m : ℝ) * b) + 9 / 5 * (σ * ((m : ℝ) + b)) := by
      linear_combination (81 / 100) * hσn
    have hq4 : σ * ((m : ℝ) + b) ≤ (m : ℝ) * b :=
      aux_sigma_n σ ((m : ℝ) + b) ((m : ℝ) * b) hσ1.le hnR hσn
    have hq5 : ((t : ℝ) * ((t : ℝ) + 2)) * ((m : ℝ) + b) ≤
        (261 / 100) * ((m : ℝ) * b) := by linarith
    have hq6 : ((t : ℝ) - 1) * t * m + (t : ℝ) * ((t : ℝ) + 2) * b =
        ((t : ℝ) * ((t : ℝ) + 2)) * ((m : ℝ) + b) - 3 * ((t : ℝ) * m) := by
      ring
    have hLHS : ((t : ℝ) - 1) * t * (m : ℝ) +
        (t : ℝ) * ((t : ℝ) + 2) * (b : ℝ) ≤ (261 / 100) * ((m : ℝ) * b) := by
      have h7 : (0 : ℝ) ≤ (t : ℝ) * m :=
        mul_nonneg htR0 (by linarith)
      linarith [hq5, hq6.le, hq6.ge]
    have hbrack : (113 : ℝ) / 200 ≤
        1 - ((t : ℝ) - 1) * t / (6 * b) - (t : ℝ) * ((t : ℝ) + 2) / (6 * m) := by
      have h8 : ((t : ℝ) - 1) * t / (6 * b) +
          (t : ℝ) * ((t : ℝ) + 2) / (6 * m) ≤ 87 / 200 :=
        aux_brack (t : ℝ) (m : ℝ) (b : ℝ) hmR hbR hLHS
      linarith
    have hE : (9 : ℝ) / 10 * σ * (113 / 200) ≤
        ((t : ℝ) + 1) - ((t : ℝ) ^ 3 - t) / (6 * b) -
          (t : ℝ) * ((t : ℝ) + 1) * ((t : ℝ) + 2) / (6 * m) := by
      have hEfact : ((t : ℝ) + 1) - ((t : ℝ) ^ 3 - t) / (6 * b) -
          (t : ℝ) * ((t : ℝ) + 1) * ((t : ℝ) + 2) / (6 * m) =
          ((t : ℝ) + 1) *
            (1 - ((t : ℝ) - 1) * t / (6 * b) -
              (t : ℝ) * ((t : ℝ) + 2) / (6 * m)) := by
        ring
      rw [hEfact]
      calc (9 : ℝ) / 10 * σ * (113 / 200) ≤ ((t : ℝ) + 1) * (113 / 200) := by
            linarith [ht2]
        _ ≤ ((t : ℝ) + 1) *
            (1 - ((t : ℝ) - 1) * t / (6 * b) -
              (t : ℝ) * ((t : ℝ) + 2) / (6 * m)) :=
            mul_le_mul_of_nonneg_left hbrack (by linarith)
    have hRσ : Real.sqrt (2 * ((m : ℝ) + b)) /
        (Real.sqrt (2 * m) * Real.sqrt (2 * b)) = Real.sqrt 2 / (2 * σ) := by
      rw [hsplit, hsqrtn, hσdef, Real.sqrt_div (by positivity) ((m : ℝ) + b)]
      have hsn0 : (0 : ℝ) < Real.sqrt ((m : ℝ) + b) := Real.sqrt_pos.mpr hnR
      have hsmb0 : (0 : ℝ) < Real.sqrt ((m : ℝ) * b) :=
        Real.sqrt_pos.mpr (by positivity)
      field_simp
    rw [hRσ] at hPlb
    have hs2 := stirlingSeq_two_eq
    have hsmu : Stirling.stirlingSeq m ≤ Real.exp 1 ^ 2 / 4 := by
      rw [← hs2]
      exact stirlingSeq_anti (by norm_num) hm2
    have hsbu : Stirling.stirlingSeq b ≤ Real.exp 1 ^ 2 / 4 := by
      rw [← hs2]
      exact stirlingSeq_anti (by norm_num) hb2
    have hprod : Stirling.stirlingSeq m * Stirling.stirlingSeq b ≤
        Real.exp 1 ^ 4 / 16 := by
      calc Stirling.stirlingSeq m * Stirling.stirlingSeq b ≤
          (Real.exp 1 ^ 2 / 4) * (Real.exp 1 ^ 2 / 4) :=
            mul_le_mul hsmu hsbu hsb.le (by positivity)
        _ = Real.exp 1 ^ 4 / 16 := by ring
    have hPσ : (367 : ℝ) / 1000 ≤
        binomPMF (m + b) m ((m : ℝ) / (m + b)) * σ := by
      have h3 : Real.sqrt Real.pi /
          (Stirling.stirlingSeq m * Stirling.stirlingSeq b) *
            (Real.sqrt 2 / 2) ≤
          binomPMF (m + b) m ((m : ℝ) / (m + b)) * σ := by
        have heq : Real.sqrt Real.pi /
            (Stirling.stirlingSeq m * Stirling.stirlingSeq b) *
              (Real.sqrt 2 / 2) =
            (Real.sqrt Real.pi /
              (Stirling.stirlingSeq m * Stirling.stirlingSeq b) *
                (Real.sqrt 2 / (2 * σ))) * σ := by
          field_simp
          ring
        rw [heq]
        exact mul_le_mul_of_nonneg_right hPlb hσ0.le
      have h4 : (1772 : ℝ) / 1000 / (Real.exp 1 ^ 4 / 16) ≤
          Real.sqrt Real.pi /
            (Stirling.stirlingSeq m * Stirling.stirlingSeq b) :=
        div_bound_aux _ _ _ _ (by norm_num) hd0 hprod hsqrtpi
      have h5 : (1772 : ℝ) / 1000 / (Real.exp 1 ^ 4 / 16) *
          ((1414 : ℝ) / 1000 / 2) ≤
          Real.sqrt Real.pi /
              (Stirling.stirlingSeq m * Stirling.stirlingSeq b) *
            (Real.sqrt 2 / 2) := by
        apply mul_le_mul h4 (by linarith [hsqrt2]) (by norm_num)
        exact (div_pos hpipos hd0).le
      have h6 : (367 : ℝ) / 1000 ≤
          (1772 : ℝ) / 1000 / (Real.exp 1 ^ 4 / 16) *
            ((1414 : ℝ) / 1000 / 2) := num_caseB (Real.exp 1) he he0
      linarith [h3, h5, h6]
    have hPE : binomPMF (m + b) m ((m : ℝ) / (m + b)) *
        ((9 : ℝ) / 10 * σ * (113 / 200)) ≤
        binomPMF (m + b) m ((m : ℝ) / (m + b)) *
          (((t : ℝ) + 1) - ((t : ℝ) ^ 3 - t) / (6 * b) -
            (t : ℝ) * ((t : ℝ) + 1) * ((t : ℝ) + 2) / (6 * m)) :=
      mul_le_mul_of_nonneg_left hE hP0
    have hfin : (33 : ℝ) / 200 ≤
        binomPMF (m + b) m ((m : ℝ) / (m + b)) *
          ((9 : ℝ) / 10 * σ * (113 / 200)) := by
      have heq2 : binomPMF (m + b) m ((m : ℝ) / (m + b)) *
          ((9 : ℝ) / 10 * σ * (113 / 200)) =
          binomPMF (m + b) m ((m : ℝ) / (m + b)) * σ * (1017 / 2000) := by
        ring
      rw [heq2]
      linarith [hPσ]
    linarith [htail, hsum, hPE, hfin]

lemma binomTail_zero_left (n : ℕ) (x : ℝ) : binomTail n 0 x = 1 := by
  rw [binomTail, show Icc 0 n = range (n + 1) by
    rw [← Nat.Ico_succ_right, Nat.Ico_zero_eq_range], sum_binomPMF]

lemma binomTail_self (n : ℕ) : binomTail n n 1 = 1 := by
  rw [binomTail, Finset.Icc_self, Finset.sum_singleton, binomPMF]
  simp

lemma binomTail_mode_ge_all (n m : ℕ) (hn : 1 ≤ n) (hmn : m ≤ n) :
    (33 : ℝ) / 200 ≤ binomTail n m ((m : ℝ) / n) := by
  rcases Nat.eq_zero_or_pos m with rfl | hm1
  · rw [binomTail_zero_left]
    norm_num
  rcases eq_or_lt_of_le hmn with rfl | hlt
  · rw [div_self (by exact_mod_cast (by omega : m ≠ 0) : ((m : ℕ) : ℝ) ≠ 0),
      binomTail_self]
    norm_num
  · have hb : 1 ≤ n - m := by omega
    have h := binomTail_mode_ge m (n - m) hm1 hb
    rw [show m + (n - m) = n by omega] at h
    have hcast : (m : ℝ) + ((n - m : ℕ) : ℝ) = (n : ℝ) := by
      rw [Nat.cast_sub hmn]
      ring
    rw [hcast] at h
    exact h

lemma binomCdf_mode_ge (n k : ℕ) (hn : 1 ≤ n) (hk : k ≤ n) :
    (33 : ℝ) / 200 ≤ binomCdf n k ((k : ℝ) / n) := by
  rw [binomCdf_eq_binomTail n k hk]
  have hn0 : ((n : ℕ) : ℝ) ≠ 0 := by exact_mod_cast (by omega : n ≠ 0)
  have h1 : (1 : ℝ) - (k : ℝ) / n = ((n - k : ℕ) : ℝ) / n := by
    rw [Nat.cast_sub hk]
    field_simp
  rw [h1]
  exact binomTail_mode_ge_all n (n - k) hn (by omega)

lemma clopperPearson_upper_ge (n k : ℕ) (h0 : 0 < n) (hk : k ≤ n) :
    (k : ℝ) / n ≤ clopperPearson n k (683 / 1000) true := by
  rw [clopperPearson, if_pos rfl]
  rcases eq_or_lt_of_le hk with rfl | hkn
  · rw [if_pos (le_refl k), div_self]
    exact_mod_cast (by omega : k ≠ 0)
  · rw [if_neg (by omega)]
    apply le_csInf
    · refine ⟨1, ⟨⟨by norm_num, le_refl 1⟩, ?_⟩⟩
      rw [binomCdf_one_eq_zero n k hkn]
      norm_num
    · rintro p ⟨⟨hp0, hp1⟩, hple⟩
      by_contra hcon
      push_neg at hcon
      have hkn1 : (k : ℝ) / n ≤ 1 := by
        rw [div_le_one (by exact_mod_cast h0)]
        exact_mod_cast hk
      have hmono : binomCdf n k ((k : ℝ) / n) ≤ binomCdf n k p :=
        binomCdf_antitoneOn n k hkn ⟨hp0, hp1⟩ ⟨by positivity, hkn1⟩ hcon.le
      have hge := binomCdf_mode_ge n k (by omega) hk
      linarith [hple, hmono, hge]

lemma clopperPearson_lower_le (n k : ℕ) (h0 : 0 < n) (hk : k ≤ n) :
    clopperPearson n k (683 / 1000) false ≤ (k : ℝ) / n := by
  rw [clopperPearson, if_neg (by simp)]
  rcases Nat.eq_zero_or_pos k with rfl | hk1
  · rw [if_pos rfl]
    positivity
  · rw [if_neg (by omega)]
    apply csSup_le
    · refine ⟨0, ⟨⟨le_refl 0, by norm_num⟩, ?_⟩⟩
      rw [binomTail_zero_eq_zero n k hk1]
      norm_num
    · rintro p ⟨⟨hp0, hp1⟩, hple⟩
      by_contra hcon
      push_neg at hcon
      have hkn1 : (k : ℝ) / n ∈ Set.Icc (0 : ℝ) 1 := by
        refine ⟨by positivity, ?_⟩
        rw [div_le_one (by exact_mod_cast h0)]
        exact_mod_cast hk
      have hmono : binomCdf n (k - 1) p ≤ binomCdf n (k - 1) ((k : ℝ) / n) :=
        binomCdf_antitoneOn n (k - 1) (by omega) hkn1 ⟨hp0, hp1⟩ hcon.le
      have e1 := binomCdf_add_binomTail n k hk1 hk p
      have e2 := binomCdf_add_binomTail n k hk1 hk ((k : ℝ) / n)
      have hge := binomTail_mode_ge_all n k (by omega) hk
      linarith [hple, hmono, e1, e2, hge]

/-! ### Claim C2 -/

/-- C2 (confirmed): for every total > 0 and 0 ≤ selected ≤ total, `getEff`
returns the point estimate `selected/total` together with the two deltas
`upper - point` and `point - lower`, and both deltas are nonnegative: the
Clopper-Pearson lower bound is at most the point estimate, which is at most
the upper bound, at confidence level 0.683. -/
theorem c2_efficiency_brackets (tot sel : ℕ) (h1 : 0 < tot) (h2 : sel ≤ tot) :
    getEff (tot : ℚ) (sel : ℚ) =
      .ok ((sel : ℚ) / (tot : ℚ),
        clopperPearson tot sel (683 / 1000) true - (sel : ℝ) / (tot : ℝ),
        (sel : ℝ) / (tot : ℝ) - clopperPearson tot sel (683 / 1000) false) ∧
    0 ≤ clopperPearson tot sel (683 / 1000) true - (sel : ℝ) / (tot : ℝ) ∧
    0 ≤ (sel : ℝ) / (tot : ℝ) - clopperPearson tot sel (683 / 1000) false := by
  have hq : ((tot : ℕ) : ℚ) ≠ 0 := by
    exact_mod_cast (by omega : tot ≠ 0)
  have htc : toCount ((tot : ℕ) : ℚ) = tot := by
    rw [toCount, Rat.floor_def']
    simp
  have hsc : toCount ((sel : ℕ) : ℚ) = sel := by
    rw [toCount, Rat.floor_def']
    simp
  refine ⟨?_, ?_, ?_⟩
  · rw [getEff, if_neg hq]
    dsimp only
    rw [htc, hsc]
    have hcast : (((sel : ℚ) / (tot : ℚ) : ℚ) : ℝ) =
        (sel : ℝ) / (tot : ℝ) := by
      push_cast
      ring
    rw [hcast]
  · linarith [clopperPearson_upper_ge tot sel h1 h2]
  · linarith [clopperPearson_lower_le tot sel h1 h2]

theorem c2_witness :
    0 < 2 ∧ 1 ≤ 2 ∧
    (getEff ((2 : ℕ) : ℚ) ((1 : ℕ) : ℚ) =
      .ok (((1 : ℕ) : ℚ) / ((2 : ℕ) : ℚ),
        clopperPearson 2 1 (683 / 1000) true - ((1 : ℕ) : ℝ) / ((2 : ℕ) : ℝ),
        ((1 : ℕ) : ℝ) / ((2 : ℕ) : ℝ) -
          clopperPearson 2 1 (683 / 1000) false) ∧
    0 ≤ clopperPearson 2 1 (683 / 1000) true - ((1 : ℕ) : ℝ) / ((2 : ℕ) : ℝ) ∧
    0 ≤ ((1 : ℕ) : ℝ) / ((2 : ℕ) : ℝ) -
      clopperPearson 2 1 (683 / 1000) false) :=
  ⟨by norm_num, by norm_num, c2_efficiency_brackets 2 1 (by norm_num) (by norm_num)⟩

end ZZAnalysis
